import Mathlib

/-!
Streaming answer ingestion and follow-up chat of `frontend/src/App.js`

A shallow embedding of the two stateful cores of `App.js`:

* `handleSubmit` (lines 148-224): the read loop that frames a chunked text
  stream into lines, parses each line into a record and reduces the records
  into the `answers` array and the `progress` value;
* `ChatModal.sendMessage` (lines 44-63): the follow-up chat of one answer.

Modelling conventions.

* A JavaScript string is a Lean `String`; the operations used by the source
  (`split('\n')`, `trim`, `startsWith`, `slice`) are defined on its character
  list. None of them looks inside a character, so the difference between
  UTF-16 code units and code points plays no part.
* React state is passed explicitly: every `setX(v)` / `setX(prev => ...)` is
  applied in program order to a record of the state variables.
* `JSON.parse`, `fetch`, `axios.post` and `Date.now` are library calls; they
  are parameters of the definitions that use them.
-/

namespace App

/-! ## Strings -/

/-- The pieces of `text.split('\n')` on a character list: the segments between
line feeds, in order. The result always has at least one piece (the empty text
splits into one empty piece). -/
def splitChars : List Char → List (List Char)
  | [] => [[]]
  | c :: cs =>
    if c = '\n' then [] :: splitChars cs
    else
      match splitChars cs with
      | [] => [[c]]
      | l :: ls => (c :: l) :: ls

/-- `s.split('\n')`. -/
def split (s : String) : List String :=
  (splitChars s.data).map String.mk

/-- The value returned by `lines.pop()` where `lines` is the result of a
`split` (never empty, so the pop never yields `undefined`). -/
def pop (lines : List String) : String :=
  lines.getLastD ""

/-- JavaScript `WhiteSpace` and `LineTerminator` code points, the characters
removed by `String.prototype.trim`. -/
def isTrimChar (c : Char) : Bool :=
  c = '\t' || c = '\n' || c.toNat = 0x0B || c.toNat = 0x0C || c = '\r' || c = ' ' ||
  c.toNat = 0xA0 || c.toNat = 0x1680 || (0x2000 ≤ c.toNat && c.toNat ≤ 0x200A) ||
  c.toNat = 0x2028 || c.toNat = 0x2029 || c.toNat = 0x202F || c.toNat = 0x205F ||
  c.toNat = 0x3000 || c.toNat = 0xFEFF

/-- `s.trim()`: white space removed from both ends. -/
def trim (s : String) : String :=
  String.mk ((s.data.dropWhile isTrimChar).reverse.dropWhile isTrimChar).reverse

/-- `line.startsWith(p)`. -/
def startsWith (line p : String) : Bool :=
  p.data.isPrefixOf line.data

/-- `line.slice(n)`. -/
def slice (line : String) (n : Nat) : String :=
  String.mk (line.data.drop n)

/-- `parseQuestions` (line 6): the lines of the text area that are not blank. -/
def parseQuestions (text : String) : List String :=
  (split text).filter (fun q => trim q != "")

/-! ## The read loop (lines 166-217) -/

/-- The `while (true)` loop of `handleSubmit` over the decoded chunks that
`reader.read()` delivers before it reports `done`, with the body of the
`for (const line of lines)` loop abstracted as `onLine`. Each round appends the
chunk to `buffer`, splits the buffer on `'\n'`, pops the last piece as the new
buffer and runs `onLine` on the remaining pieces in order. The result is the
state after the loop and the buffer left over when the stream ends. -/
def readLoop {σ : Type} (onLine : σ → String → σ) : String → σ → List String → σ × String
  | buffer, st, [] => (st, buffer)
  | buffer, st, chunk :: rest =>
    let lines := split (buffer ++ chunk)
    readLoop onLine (pop lines) (lines.dropLast.foldl onLine st) rest

/-- The lines that the read loop hands to the per-line step, in order: the
loop run with a step that records its argument. -/
def linesRead (chunks : List String) : List String :=
  (readLoop (fun acc line => acc ++ [line]) "" [] chunks).1

/-- The whole decoded text of a stream: its chunks joined in arrival order. -/
def wholeText (chunks : List String) : String :=
  chunks.foldr (· ++ ·) ""

/-! ## Records, slots and the `answers` array -/

/-- A JavaScript number as far as `progress` needs it: a finite value, kept
exact, or a value that is not finite (`NaN`, `Infinity`, `-Infinity`).
Rounding to a double is not modelled. -/
inductive Num where
  | finite (q : ℚ)
  | nonFinite
  deriving DecidableEq

/-- `(a / b) * 100` on numbers holding integers: not finite when `b` is zero
(`a / 0` is `NaN` or an infinity, and stays so when multiplied). -/
def percent (a b : Int) : Num :=
  if b = 0 then .nonFinite else .finite ((a : ℚ) / (b : ℚ) * 100)

/-- `0 ≤ x ≤ 100` for a JavaScript number; false for a value that is not
finite (every comparison with `NaN` is false, the infinities are outside). -/
def Num.inRange : Num → Prop
  | .finite q => 0 ≤ q ∧ q ≤ 100
  | .nonFinite => False

/-- The `type` strings that `handleSubmit` tests for (lines 183, 193, 203, 212). -/
def knownTypes : List String := ["progress", "token", "answer_done", "error"]

/-- Whether `data.type` (`none` when it is missing or not a string) is one of
the four strings tested for. -/
def isKnown : Option String → Bool
  | some t => decide (t ∈ knownTypes)
  | none => false

/-- The value returned by `JSON.parse` for one line, seen through the fields
that `handleSubmit` reads. A record whose `type` is one of the four known
strings carries the fields of its wire shape (`index` a non-negative integer
below the array-index limit, `total` and `current` integers, the texts
strings, the `error` flag of `answer_done` a boolean); every other value is
`other` with its `type` property when that is a string, except `null`, on
which reading `data.type` throws. -/
inductive Data where
  | null
  | progress (index : Nat) (total current : Int) (question : String)
  | token (index : Nat) (chunk : String)
  | answerDone (index : Nat) (question answer : String) (error : Bool)
  | error (error : String)
  | other (type : Option String) (unknown : isKnown type = false)

/-- The `type` property of a parsed value that is not `null`. -/
def Data.type : Data → Option String
  | .null => none
  | .progress _ _ _ _ => some "progress"
  | .token _ _ => some "token"
  | .answerDone _ _ _ _ => some "answer_done"
  | .error _ => some "error"
  | .other t _ => t

/-- One answer card object held in `answers`. `type` is the `type` property,
which only the objects built by `{ ...data, streaming: false }` have. -/
structure Slot where
  question : String
  answer : String
  error : Bool
  index : Nat
  streaming : Bool
  type : Option String
  deriving DecidableEq

/-- One position of the `answers` array: a hole of a sparse array (never
assigned), the value `undefined`, or an answer card. -/
inductive Cell where
  | hole
  | undefined
  | slot (s : Slot)
  deriving DecidableEq

/-- `[...prev]`: a copy in which every hole has become `undefined`. -/
def spread (prev : List Cell) : List Cell :=
  prev.map (fun c => match c with
    | .hole => .undefined
    | c => c)

/-- `next[i] = v`: overwrites position `i`, growing the array with holes when
`i` is at or beyond its length. -/
def assign : List Cell → Nat → Cell → List Cell
  | [], 0, v => [v]
  | [], i + 1, v => .hole :: assign [] i v
  | _ :: xs, 0, v => v :: xs
  | x :: xs, i + 1, v => x :: assign xs i v

/-- `answers[i]` as an answer card: `none` when the value read is `undefined`
(a hole, a stored `undefined`, or an index at or beyond the length). -/
def slotAt (xs : List Cell) (i : Nat) : Option Slot :=
  match xs.get? i with
  | some (.slot s) => some s
  | _ => none

/-- The updater passed to `setAnswers` for a `progress` record (lines 186-190). -/
def progressUpdater (index : Nat) (question : String) (prev : List Cell) : List Cell :=
  assign (spread prev) index
    (.slot { question := question, answer := "", error := false, index := index,
             streaming := true, type := none })

/-- The updater passed to `setAnswers` for a `token` record (lines 195-201):
the card at `index`, when there is one, gets `chunk` appended to its answer. -/
def tokenUpdater (index : Nat) (chunk : String) (prev : List Cell) : List Cell :=
  let next := spread prev
  match slotAt next index with
  | some s => assign next index (.slot { s with answer := s.answer ++ chunk })
  | none => next

/-- The updater passed to `setAnswers` for an `answer_done` record
(lines 205-209): `{ ...data, streaming: false }` stored at `index`. -/
def doneUpdater (index : Nat) (question answer : String) (error : Bool)
    (prev : List Cell) : List Cell :=
  assign (spread prev) index
    (.slot { question := question, answer := answer, error := error, index := index,
             streaming := false, type := some "answer_done" })

/-! ## `handleSubmit` -/

/-- The state variables of `App` that `handleSubmit` writes. -/
structure AppState where
  loading : Bool
  error : String
  answers : List Cell
  progress : Num
  currentAnswerIndex : Int
  copiedIndex : Option Nat
  deriving DecidableEq

/-- The state of a freshly mounted `App` (lines 133-139). -/
def AppState.initial : AppState :=
  { loading := false, error := "", answers := [], progress := .finite 0,
    currentAnswerIndex := -1, copiedIndex := none }

/-- The `if / else if` chain on `data.type` (lines 183-214) for a value that
`JSON.parse` returned; `n` is `qArray.length`. The result is `none` when the
chain throws (reading `data.type` on `null`). -/
def applyRecord (n : Nat) (st : AppState) : Data → Option AppState
  | .null => none
  | .progress index total current question =>
    some { st with
      progress := percent current total
      answers := progressUpdater index question st.answers
      currentAnswerIndex := index }
  | .token index chunk =>
    some { st with answers := tokenUpdater index chunk st.answers }
  | .answerDone index question answer error =>
    some { st with
      answers := doneUpdater index question answer error st.answers
      progress := percent (index + 1) n }
  | .error e => some { st with error := e }
  | .other _ _ => some st

/-- The chain inside its `try { ... } catch { }` (lines 180-215), for a value
that `JSON.parse` returned: when the chain throws, the state is as before. -/
def tryRecord (n : Nat) (st : AppState) (data : Data) : AppState :=
  match applyRecord n st data with
  | none => st
  | some st' => st'

/-- The body of `for (const line of lines)` (lines 179-215): a line without
the prefix `data: ` is skipped; otherwise the rest of the line is parsed and
the record applied, and a throw of `JSON.parse` is swallowed by the inner
`catch`. `jsonParse` is `JSON.parse` (`none` when it throws). -/
def processLine (jsonParse : String → Option Data) (n : Nat) (st : AppState)
    (line : String) : AppState :=
  if !startsWith line "data: " then st
  else
    match jsonParse (slice line 6) with
    | none => st
    | some data => tryRecord n st data

/-- The records of a sequence applied in arrival order. -/
def applyAll (n : Nat) (st : AppState) (events : List Data) : AppState :=
  events.foldl (tryRecord n) st

/-- Whether a record is a `progress` or an `answer_done` for index `i`. -/
def startsOrEnds (i : Nat) : Data → Bool
  | .progress j _ _ _ => decide (j = i)
  | .answerDone j _ _ _ => decide (j = i)
  | _ => false

/-- The chunks of the `token` records for index `i`, joined in arrival order. -/
def tokensFor (i : Nat) : List Data → String
  | [] => ""
  | .token j chunk :: rest =>
    if j = i then chunk ++ tokensFor i rest else tokensFor i rest
  | _ :: rest => tokensFor i rest

/-- How the calls of `reader.read()` end: with `done`, or by throwing. -/
inductive StreamEnd where
  | done
  | throws
  deriving DecidableEq

/-- What the network delivers to one `handleSubmit`: `fetch` itself rejects,
the response is not OK, or the body yields the decoded `chunks` one per
successful `reader.read()` and then ends as `last` says. -/
inductive Fetched where
  | rejects
  | notOk (status : Nat)
  | stream (chunks : List String) (last : StreamEnd)

/-- The decoded chunks that the read loop received. -/
def Fetched.chunksRead : Fetched → List String
  | .stream chunks _ => chunks
  | _ => []

/-- The `try` block of `handleSubmit` (lines 156-217): the state it leaves and
whether it was left by an exception. -/
def tryBlock (jsonParse : String → Option Data) (n : Nat) (st : AppState) :
    Fetched → AppState × Bool
  | .rejects => (st, true)
  | .notOk _ => (st, true)
  | .stream chunks last =>
    ((readLoop (processLine jsonParse n) "" st chunks).1, decide (last = .throws))

/-- The state in which `handleSubmit` enters its `try` block (lines 153-154). -/
def resetForSubmit (st : AppState) : AppState :=
  { st with loading := true, error := "", answers := [], currentAnswerIndex := -1,
            progress := .finite 0, copiedIndex := none }

/-- `handleSubmit` (lines 148-224) as a function of the text area content, of
what the network delivers and of the state before. -/
def handleSubmit (jsonParse : String → Option Data) (questions : String)
    (fetched : Fetched) (st : AppState) : AppState :=
  let qArray := parseQuestions questions
  if qArray.length = 0 then { st with error := "Please enter at least one question" }
  else
    let tried := tryBlock jsonParse qArray.length (resetForSubmit st) fetched
    let caught :=
      if tried.2 then
        { tried.1 with error := "Failed to process questions. Please try again." }
      else tried.1
    { caught with loading := false, progress := .finite 100 }

/-! ## `ChatModal.sendMessage` -/

/-- One entry of `chatMessages`. -/
structure Message where
  role : String
  content : String
  timestamp : Nat
  deriving DecidableEq

/-- The answer card shown in the chat, `item`. -/
structure Item where
  question : String
  answer : String
  deriving DecidableEq

/-- One entry of the `history` field of a request. -/
structure Turn where
  role : String
  content : String
  deriving DecidableEq

/-- The body posted to `/api/chat` (lines 50-55). -/
structure ChatRequest where
  originalQuestion : String
  originalAnswer : String
  history : List Turn
  userMessage : String
  deriving DecidableEq

/-- The `{ role, content }` pair of a message (line 53). -/
def Message.toTurn (m : Message) : Turn :=
  { role := m.role, content := m.content }

/-- The state variables of one `ChatModal`. -/
structure ChatState where
  chatMessages : List Message
  input : String
  chatLoading : Bool
  chatError : String
  deriving DecidableEq

/-- The first message of every transcript (lines 25-29). -/
def seedMessage (item : Item) (now : Nat) : Message :=
  { role := "assistant",
    content := "Hi! I can answer follow-up questions about:\n\n**Q:** " ++ item.question ++
      "\n**A:** " ++ item.answer ++ "\n\nWhat would you like to know more about?",
    timestamp := now }

/-- The state of a freshly opened `ChatModal` (lines 25-32). -/
def ChatState.initial (item : Item) (now : Nat) : ChatState :=
  { chatMessages := [seedMessage item now], input := "", chatLoading := false,
    chatError := "" }

/-- How `axios.post` settles: it throws, or it resolves with `res.data`. -/
inductive ChatOutcome where
  | throws
  | resolved (success : Bool) (reply : String)
  deriving DecidableEq

/-- `sendMessage` up to the `await` (lines 45-55): the state after the three
setters and the request posted, or the state as it was and no request when
the guard of line 46 returns. `now` is `Date.now()`. -/
def sendStart (item : Item) (now : Nat) (st : ChatState) : ChatState × Option ChatRequest :=
  let userMsg := trim st.input
  if userMsg = "" || st.chatLoading then (st, none)
  else
    ({ st with
        chatMessages := st.chatMessages ++ [{ role := "user", content := userMsg, timestamp := now }]
        input := ""
        chatLoading := true
        chatError := "" },
     some { originalQuestion := item.question
            originalAnswer := item.answer
            history := (st.chatMessages.drop 1).map Message.toTurn
            userMessage := userMsg })

/-- `sendMessage` after the `await` (lines 56-62), on the state that the
request left pending. `now` is the `Date.now()` of line 57. -/
def sendFinish (now : Nat) (st : ChatState) : ChatOutcome → ChatState
  | .resolved true reply =>
    { st with
        chatMessages := st.chatMessages ++ [{ role := "assistant", content := reply, timestamp := now }]
        chatLoading := false }
  | .resolved false _ =>
    { st with chatError := "Failed to get response. Please try again.", chatLoading := false }
  | .throws =>
    { st with chatError := "Error connecting to server.", chatLoading := false }

/-- One whole call of `sendMessage` (lines 44-63): the final state and the
requests it posted. `post` is `axios.post` on the chat endpoint. -/
def sendMessage (item : Item) (post : ChatRequest → ChatOutcome) (now later : Nat)
    (st : ChatState) : ChatState × List ChatRequest :=
  match sendStart item now st with
  | (st', none) => (st', [])
  | (st', some req) => (sendFinish later st' (post req), [req])

/-- A function that agrees with `JSON.parse` on the payloads used in the
examples below and reports a syntax error on every other text (such as
`oops`). -/
def sampleParse (text : String) : Option Data :=
  if text = "null" then some .null
  else if text = "\x7b\"type\":\"ping\"\x7d" then some (.other (some "ping") rfl)
  else if text = "\x7b\"type\":\"progress\",\"index\":0,\"total\":2,\"current\":1,\"question\":\"Q1\"\x7d" then
    some (.progress 0 2 1 "Q1")
  else if text = "\x7b\"type\":\"token\",\"index\":0,\"chunk\":\"Hi\"\x7d" then
    some (.token 0 "Hi")
  else if text = "\x7b\"type\":\"answer_done\",\"index\":0,\"question\":\"Q1\",\"answer\":\"Hi\",\"error\":false\x7d" then
    some (.answerDone 0 "Q1" "Hi" false)
  else none

/-- A chat about one answer card in which one exchange has already taken
place and the user has typed a second question. -/
def sampleChat : ChatState :=
  { chatMessages :=
      [seedMessage { question := "Q1", answer := "A1" } 10,
       { role := "user", content := "why?", timestamp := 20 },
       { role := "assistant", content := "because", timestamp := 30 }],
    input := "  and then? \n", chatLoading := false, chatError := "" }

/-- Whether the callback `a => !a?.error` of line 286 keeps a position when
`filter` runs over the array: `filter` never visits a hole; on a stored
`undefined` the callback computes `!undefined`, which is true; on a card it
computes `!a.error`. -/
def countsAsAnswer : Cell → Bool
  | .hole => false
  | .undefined => true
  | .slot s => !s.error

/-- The number shown as `Answers`: `answers.filter(a => !a?.error).length`
(line 286). -/
def answerCount (answers : List Cell) : Nat :=
  (answers.filter countsAsAnswer).length

/-- The number of indices of the array that hold a card whose error flag is
false, as the specification words the count. -/
def cardsWithoutError (answers : List Cell) : Nat :=
  ((List.range answers.length).filter (fun i =>
    match slotAt answers i with
    | some s => !s.error
    | none => false)).length

/-- The number of positions that hold a stored `undefined`. -/
def undefinedCount (answers : List Cell) : Nat :=
  (answers.filter (fun c => decide (c = .undefined))).length

/-- The request that `sendMessage` posts for the second question of
`sampleChat`. -/
def sampleRequest : ChatRequest :=
  { originalQuestion := "Q1", originalAnswer := "A1",
    history := [{ role := "user", content := "why?" },
                { role := "assistant", content := "because" }],
    userMessage := "and then?" }

/-! ## Line framing -/

theorem splitChars_ne_nil (l : List Char) : splitChars l ≠ [] := by
  cases l with
  | nil => simp [splitChars]
  | cons c cs =>
    unfold splitChars
    split
    · simp
    · split <;> simp

theorem splitChars_lf (cs : List Char) : splitChars ('\n' :: cs) = [] :: splitChars cs := by
  simp [splitChars]

theorem splitChars_cons {c : Char} {cs l : List Char} {ls : List (List Char)}
    (hc : c ≠ '\n') (h : splitChars cs = l :: ls) :
    splitChars (c :: cs) = (c :: l) :: ls := by
  simp [splitChars, hc, h]

/-- `splitChars` is the library split of a list on the line feed. -/
theorem splitChars_eq_splitOn (l : List Char) : splitChars l = l.splitOn '\n' := by
  induction l with
  | nil => rfl
  | cons c cs ih =>
    obtain ⟨p, ps, hp⟩ := List.exists_cons_of_ne_nil (splitChars_ne_nil cs)
    have ih2 : List.splitOnP (fun x => x == '\n') cs = p :: ps := by
      rw [← hp, ih]; rfl
    by_cases hc : c = '\n'
    · subst hc
      rw [splitChars_lf, ih]
      simp [List.splitOn, List.splitOnP_cons]
    · rw [splitChars_cons hc hp]
      simp [List.splitOn, List.splitOnP_cons, hc, ih2, List.modifyHead]

/-- Joining the pieces with line feeds gives the text back. -/
theorem intercalate_splitChars (l : List Char) :
    ['\n'].intercalate (splitChars l) = l := by
  rw [splitChars_eq_splitOn]
  exact List.intercalate_splitOn _ _

/-- Splitting a concatenation: the complete lines of the first part, then the
split of its unterminated rest followed by the second part. -/
theorem splitChars_append (a b : List Char) :
    splitChars (a ++ b)
      = (splitChars a).dropLast ++ splitChars ((splitChars a).getLastD [] ++ b) := by
  induction a with
  | nil => simp [splitChars]
  | cons c cs ih =>
    obtain ⟨l, ls, hl⟩ := List.exists_cons_of_ne_nil (splitChars_ne_nil cs)
    rw [hl] at ih
    by_cases hc : c = '\n'
    · subst hc
      rw [List.cons_append, splitChars_lf, splitChars_lf, ih, hl]
      simp [List.dropLast]
    · rw [splitChars_cons hc hl]
      cases ls with
      | nil =>
        have ih2 : splitChars (cs ++ b) = splitChars (l ++ b) := by simpa using ih
        show splitChars (c :: (cs ++ b)) = splitChars (c :: (l ++ b))
        simp only [splitChars, hc, if_false, ih2]
      | cons m ms =>
        have h2 : splitChars (cs ++ b)
            = l :: ((m :: ms).dropLast ++ splitChars ((m :: ms).getLastD [] ++ b)) := by
          rw [ih]; simp [List.dropLast]
        rw [List.cons_append, splitChars_cons hc h2]
        simp [List.dropLast]

theorem splitChars_of_no_lf {p : List Char} (h : '\n' ∉ p) : splitChars p = [p] := by
  induction p with
  | nil => rfl
  | cons c cs ih =>
    have hc : c ≠ '\n' := fun e => h (by simp [e])
    have hcs : '\n' ∉ cs := fun e => h (List.mem_cons_of_mem _ e)
    exact splitChars_cons hc (ih hcs)

theorem no_lf_of_mem_splitChars (l : List Char) :
    ∀ p ∈ splitChars l, '\n' ∉ p := by
  induction l with
  | nil => simp [splitChars]
  | cons c cs ih =>
    obtain ⟨l, ls, hl⟩ := List.exists_cons_of_ne_nil (splitChars_ne_nil cs)
    by_cases hc : c = '\n'
    · subst hc
      rw [splitChars_lf]
      intro p hp
      rcases List.mem_cons.1 hp with h | h
      · simp [h]
      · exact ih p h
    · rw [splitChars_cons hc hl]
      rw [hl] at ih
      intro p hp
      rcases List.mem_cons.1 hp with h | h
      · subst h
        have hl0 := ih l (List.mem_cons_self _ _)
        intro hm
        rcases List.mem_cons.1 hm with e | e
        · exact hc e.symm
        · exact hl0 e
      · exact ih p (List.mem_cons_of_mem _ h)

theorem split_ne_nil (s : String) : split s ≠ [] := by
  simp [split, splitChars_ne_nil]

theorem getLastD_map {α β : Type} (f : α → β) (L : List α) :
    ∀ d : α, (L.map f).getLastD (f d) = f (L.getLastD d) := by
  induction L with
  | nil => intro d; rfl
  | cons a as ih =>
    intro d
    rw [List.map_cons, List.getLastD_cons, List.getLastD_cons]
    exact ih a

theorem getLastD_mem {α : Type} (L : List α) :
    ∀ d : α, L ≠ [] → L.getLastD d ∈ L := by
  induction L with
  | nil => intro d h; exact absurd rfl h
  | cons a as ih =>
    intro d _
    rw [List.getLastD_cons]
    cases as with
    | nil => exact List.mem_cons_self _ _
    | cons b bs => exact List.mem_cons_of_mem _ (ih a (List.cons_ne_nil _ _))

theorem getLastD_append_of_ne_nil {α : Type} (A : List α) {B : List α} (hB : B ≠ []) :
    ∀ d : α, (A ++ B).getLastD d = B.getLastD d := by
  induction A with
  | nil => intro d; rfl
  | cons a as ih =>
    intro d
    rw [List.cons_append, List.getLastD_cons, ih a]
    obtain ⟨b, bs, rfl⟩ := List.exists_cons_of_ne_nil hB
    rw [List.getLastD_cons, List.getLastD_cons]

theorem pop_map_mk (L : List (List Char)) :
    pop (L.map String.mk) = String.mk (L.getLastD []) :=
  getLastD_map String.mk L []

/-- The unterminated rest that `pop` returns holds no line feed: splitting it
again gives it back as the only piece. -/
theorem split_pop_split (s : String) : split (pop (split s)) = [pop (split s)] := by
  have hmem := getLastD_mem (splitChars s.data) [] (splitChars_ne_nil s.data)
  have hno := no_lf_of_mem_splitChars s.data _ hmem
  unfold split
  rw [pop_map_mk, splitChars_of_no_lf hno]
  rfl

theorem split_append (a b : String) :
    split (a ++ b) = (split a).dropLast ++ split (pop (split a) ++ b) := by
  unfold split
  rw [pop_map_mk]
  simp only [String.data_append, splitChars_append a.data b.data, List.map_append,
    List.map_dropLast]

/-- The read loop started on a buffer without line feed hands over exactly the
pieces of the buffer followed by the whole text, the last piece excepted, and
keeps that last piece as its buffer. -/
theorem readLoop_eq {σ : Type} (f : σ → String → σ) (chunks : List String) :
    ∀ (buffer : String) (st : σ), split buffer = [buffer] →
      readLoop f buffer st chunks
        = ((split (buffer ++ wholeText chunks)).dropLast.foldl f st,
           pop (split (buffer ++ wholeText chunks))) := by
  induction chunks with
  | nil =>
    intro buffer st hb
    simp [readLoop, wholeText, hb, pop]
  | cons c rest ih =>
    intro buffer st hb
    have hne := split_ne_nil (pop (split (buffer ++ c)) ++ wholeText rest)
    have hw : buffer ++ wholeText (c :: rest) = (buffer ++ c) ++ wholeText rest := by
      simp [wholeText, String.append_assoc]
    rw [hw, split_append (buffer ++ c) (wholeText rest)]
    simp only [readLoop]
    rw [ih _ _ (split_pop_split _)]
    rw [List.dropLast_append_of_ne_nil _ hne, List.foldl_append]
    congr 1
    exact (getLastD_append_of_ne_nil _ hne "").symm

theorem split_empty : split "" = [""] := by decide

/-- C1. Line framing does not depend on chunking: whatever the cut of a text
into consecutive chunks (empty chunks, cuts inside a line), the lines that the
read loop hands to its per-line step, in order, are the pieces of
`text.split('\n')` of the whole text without the last piece; the read loop of
`handleSubmit` therefore ends in the state reached by running `processLine`
over exactly those pieces, and the last piece (an unterminated rest) is left
in `buffer` and never handed over. -/
theorem C1_line_framing_independent_of_chunking (chunks : List String) :
    linesRead chunks = (split (wholeText chunks)).dropLast ∧
    ∀ (jsonParse : String → Option Data) (n : Nat) (st : AppState),
      readLoop (processLine jsonParse n) "" st chunks
        = ((split (wholeText chunks)).dropLast.foldl (processLine jsonParse n) st,
           pop (split (wholeText chunks))) := by
  have h0 : ∀ s : String, "" ++ s = s := fun s => by
    apply String.ext; simp
  constructor
  · unfold linesRead
    rw [readLoop_eq _ chunks "" [] split_empty, h0]
    show List.foldl (fun acc line => acc ++ [line]) [] _ = _
    generalize (split (wholeText chunks)).dropLast = L
    have key : ∀ (M acc : List String),
        List.foldl (fun acc line => acc ++ [line]) acc M = acc ++ M := by
      intro M
      induction M with
      | nil => intro acc; simp
      | cons m ms ih => intro acc; simp [ih]
    simpa using key L []
  · intro jsonParse n st
    rw [readLoop_eq _ chunks "" st split_empty, h0]

/-! ## The `answers` array under the updaters -/

theorem empty_append (s : String) : "" ++ s = s := by
  apply String.ext; simp

theorem slotAt_nil (i : Nat) : slotAt [] i = none := by
  cases i <;> rfl

theorem slotAt_cons_succ (c : Cell) (xs : List Cell) (i : Nat) :
    slotAt (c :: xs) (i + 1) = slotAt xs i := rfl

theorem spread_length (xs : List Cell) : (spread xs).length = xs.length := by
  simp [spread]

/-- Reading through a copy made by `[...prev]` gives what `prev` gives. -/
theorem slotAt_spread (xs : List Cell) : ∀ i, slotAt (spread xs) i = slotAt xs i := by
  induction xs with
  | nil => intro i; rfl
  | cons c cs ih =>
    intro i
    cases i with
    | zero => cases c <;> rfl
    | succ k => exact ih k

theorem slotAt_assign_self (xs : List Cell) (s : Slot) :
    ∀ i, slotAt (assign xs i (.slot s)) i = some s := by
  induction xs with
  | nil =>
    intro i
    induction i with
    | zero => rfl
    | succ k ih => exact ih
  | cons c cs ih =>
    intro i
    cases i with
    | zero => rfl
    | succ k => exact ih k

theorem slotAt_assign_nil_ne (v : Cell) :
    ∀ i j, j ≠ i → slotAt (assign [] i v) j = none := by
  intro i
  induction i with
  | zero =>
    intro j hj
    cases j with
    | zero => exact absurd rfl hj
    | succ k => exact slotAt_nil k
  | succ i ih =>
    intro j hj
    cases j with
    | zero => rfl
    | succ k => exact ih k (fun e => hj (by rw [e]))

theorem slotAt_assign_ne (xs : List Cell) (v : Cell) :
    ∀ i j, j ≠ i → slotAt (assign xs i v) j = slotAt xs j := by
  induction xs with
  | nil =>
    intro i j hj
    rw [slotAt_assign_nil_ne v i j hj, slotAt_nil]
  | cons c cs ih =>
    intro i j hj
    cases i with
    | zero =>
      cases j with
      | zero => exact absurd rfl hj
      | succ k => rfl
    | succ i =>
      cases j with
      | zero => rfl
      | succ k => exact ih i k (fun e => hj (by rw [e]))

theorem assign_length_of_lt (xs : List Cell) (v : Cell) :
    ∀ i, i < xs.length → (assign xs i v).length = xs.length := by
  induction xs with
  | nil => intro i h; exact absurd h (Nat.not_lt_zero _)
  | cons c cs ih =>
    intro i h
    cases i with
    | zero => rfl
    | succ k =>
      show (assign cs k v).length + 1 = cs.length + 1
      rw [ih k (Nat.lt_of_succ_lt_succ h)]

theorem lt_length_of_slotAt (xs : List Cell) :
    ∀ i s, slotAt xs i = some s → i < xs.length := by
  induction xs with
  | nil => intro i s h; rw [slotAt_nil] at h; exact absurd h (by simp)
  | cons c cs ih =>
    intro i s h
    cases i with
    | zero => exact Nat.succ_pos _
    | succ k => exact Nat.succ_lt_succ (ih k s h)

theorem tokenUpdater_of_none {xs : List Cell} {i : Nat} (chunk : String)
    (h : slotAt xs i = none) : tokenUpdater i chunk xs = spread xs := by
  unfold tokenUpdater
  simp only [slotAt_spread, h]

theorem tokenUpdater_of_some {xs : List Cell} {i : Nat} {s : Slot} (chunk : String)
    (h : slotAt xs i = some s) :
    tokenUpdater i chunk xs
      = assign (spread xs) i (.slot { s with answer := s.answer ++ chunk }) := by
  unfold tokenUpdater
  simp only [slotAt_spread, h]

/-- A `token` never changes what is read at another index. -/
theorem slotAt_tokenUpdater_ne (xs : List Cell) (i j : Nat) (chunk : String) (hj : j ≠ i) :
    slotAt (tokenUpdater i chunk xs) j = slotAt xs j := by
  cases h : slotAt xs i with
  | none => rw [tokenUpdater_of_none chunk h, slotAt_spread]
  | some s => rw [tokenUpdater_of_some chunk h, slotAt_assign_ne _ _ _ _ hj, slotAt_spread]

/-- While no `progress` or `answer_done` for index `i` arrives, the card at `i`
keeps every field but `answer`, which grows by the chunks of the tokens for
`i`, in arrival order. -/
theorem slotAt_applyAll_tokens (n i : Nat) (events : List Data) :
    ∀ (st : AppState) (s : Slot), slotAt st.answers i = some s →
      (∀ d ∈ events, startsOrEnds i d = false) →
      slotAt (applyAll n st events).answers i
        = some { s with answer := s.answer ++ tokensFor i events } := by
  induction events with
  | nil =>
    intro st s hs _
    have he : s.answer ++ "" = s.answer := by apply String.ext; simp
    simp only [applyAll, List.foldl, tokensFor, he]
    exact hs
  | cons d rest ih =>
    intro st s hs hno
    have hrest : ∀ e ∈ rest, startsOrEnds i e = false :=
      fun e he => hno e (List.mem_cons_of_mem _ he)
    have hd := hno d (List.mem_cons_self _ _)
    show slotAt (applyAll n (tryRecord n st d) rest).answers i = _
    cases d with
    | null => exact ih st s hs hrest
    | progress j total current question =>
      have hj : i ≠ j := fun e => by simp [startsOrEnds, e] at hd
      have h1 : slotAt (tryRecord n st (.progress j total current question)).answers i
          = some s := by
        show slotAt (progressUpdater j question st.answers) i = some s
        unfold progressUpdater
        rw [slotAt_assign_ne _ _ _ _ hj, slotAt_spread, hs]
      exact ih _ s h1 hrest
    | token j chunk =>
      by_cases hj : j = i
      · subst hj
        have h1 : slotAt (tryRecord n st (.token j chunk)).answers j
            = some { s with answer := s.answer ++ chunk } := by
          show slotAt (tokenUpdater j chunk st.answers) j = _
          rw [tokenUpdater_of_some chunk hs, slotAt_assign_self]
        rw [ih _ _ h1 hrest]
        simp [tokensFor, String.append_assoc]
      · have h1 : slotAt (tryRecord n st (.token j chunk)).answers i = some s := by
          show slotAt (tokenUpdater j chunk st.answers) i = some s
          rw [slotAt_tokenUpdater_ne _ _ _ _ (fun e => hj e.symm), hs]
        rw [ih _ s h1 hrest]
        simp [tokensFor, hj]
    | answerDone j question answer error =>
      have hj : i ≠ j := fun e => by simp [startsOrEnds, e] at hd
      have h1 : slotAt (tryRecord n st (.answerDone j question answer error)).answers i
          = some s := by
        show slotAt (doneUpdater j question answer error st.answers) i = some s
        unfold doneUpdater
        rw [slotAt_assign_ne _ _ _ _ hj, slotAt_spread, hs]
      exact ih _ s h1 hrest
    | error e => exact ih _ s hs hrest
    | other t h => exact ih st s hs hrest

theorem applyAll_append (n : Nat) (st : AppState) (xs ys : List Data) :
    applyAll n st (xs ++ ys) = applyAll n (applyAll n st xs) ys := by
  simp [applyAll, List.foldl_append]

/-- C2. Token accumulation: from any starting state and after any earlier
records, once a `progress` record for index `i` has been applied and no later
`progress` or `answer_done` for `i` follows, the card at `i` holds the
question of that `progress` record, `error: false`, `streaming: true` and, as
its answer, the chunks of the later `token` records for `i` joined in arrival
order (the empty string when there is none), whatever was interleaved for
other indices. -/
theorem C2_token_accumulation (n : Nat) (st : AppState) (before after : List Data)
    (i : Nat) (total current : Int) (question : String)
    (hafter : ∀ d ∈ after, startsOrEnds i d = false) :
    slotAt (applyAll n st (before ++ .progress i total current question :: after)).answers i
      = some { question := question, answer := tokensFor i after, error := false,
               index := i, streaming := true, type := none } := by
  rw [applyAll_append]
  show slotAt (applyAll n (tryRecord n (applyAll n st before)
      (.progress i total current question)) after).answers i = _
  have h1 : slotAt (tryRecord n (applyAll n st before)
      (.progress i total current question)).answers i
      = some { question := question, answer := "", error := false,
               index := i, streaming := true, type := none } := by
    show slotAt (progressUpdater i question _) i = _
    unfold progressUpdater
    rw [slotAt_assign_self]
  rw [slotAt_applyAll_tokens n i after _ _ h1 hafter]
  simp [empty_append]

/-- Witness of C2: two indices interleaved, with a stale card at index 0 before. -/
theorem C2_token_accumulation_witness :
    (∀ d ∈ [Data.token 0 "Hel", .progress 1 2 2 "Q2", .token 1 "x", .token 0 "lo",
            .error "e"], startsOrEnds 0 d = false) ∧
    slotAt (applyAll 2 AppState.initial
      ([.answerDone 0 "old" "stale" true] ++
        .progress 0 2 1 "Q1" ::
          [.token 0 "Hel", .progress 1 2 2 "Q2", .token 1 "x", .token 0 "lo",
           .error "e"])).answers 0
      = some { question := "Q1", answer := tokensFor 0
                 [.token 0 "Hel", .progress 1 2 2 "Q2", .token 1 "x", .token 0 "lo",
                  .error "e"],
               error := false, index := 0, streaming := true, type := none } :=
  ⟨by decide,
   C2_token_accumulation 2 AppState.initial [.answerDone 0 "old" "stale" true]
    [.token 0 "Hel", .progress 1 2 2 "Q2", .token 1 "x", .token 0 "lo", .error "e"]
    0 2 1 "Q1" (by decide)⟩

/-- C3. An `answer_done` record is authoritative: whatever the array held at
its index before (nothing, a streaming card, a finished card), afterwards the
card there has the question, the answer and the error flag of the record and
`streaming: false`, and what is read at every other index is as before. -/
theorem C3_answer_done_overwrites (n : Nat) (st : AppState) (i : Nat)
    (question answer : String) (error : Bool) :
    slotAt (tryRecord n st (.answerDone i question answer error)).answers i
      = some { question := question, answer := answer, error := error, index := i,
               streaming := false, type := some "answer_done" } ∧
    ∀ j, j ≠ i →
      slotAt (tryRecord n st (.answerDone i question answer error)).answers j
        = slotAt st.answers j := by
  constructor
  · show slotAt (doneUpdater i question answer error st.answers) i = _
    unfold doneUpdater
    rw [slotAt_assign_self]
  · intro j hj
    show slotAt (doneUpdater i question answer error st.answers) j = _
    unfold doneUpdater
    rw [slotAt_assign_ne _ _ _ _ hj, slotAt_spread]

/-- C4. A `token` record for an index that holds no card (a hole, `undefined`,
or an index at or beyond the length) creates nothing: the array keeps its
length and reads the same at every index. -/
theorem C4_token_without_slot_dropped (n : Nat) (st : AppState) (i : Nat) (chunk : String)
    (habsent : slotAt st.answers i = none) :
    (tryRecord n st (.token i chunk)).answers.length = st.answers.length ∧
    ∀ j, slotAt (tryRecord n st (.token i chunk)).answers j = slotAt st.answers j := by
  have h : (tryRecord n st (.token i chunk)).answers = spread st.answers :=
    tokenUpdater_of_none chunk habsent
  rw [h]
  exact ⟨spread_length _, slotAt_spread _⟩

/-- Witness of C4: a token for index 3 of an array of length 2, and the state
it is applied to. -/
theorem C4_token_without_slot_dropped_witness :
    slotAt (applyAll 2 AppState.initial [.progress 1 2 1 "Q2"]).answers 3 = none ∧
    (tryRecord 2 (applyAll 2 AppState.initial [.progress 1 2 1 "Q2"])
        (.token 3 "x")).answers.length
      = (applyAll 2 AppState.initial [.progress 1 2 1 "Q2"]).answers.length ∧
    ∀ j, slotAt (tryRecord 2 (applyAll 2 AppState.initial [.progress 1 2 1 "Q2"])
        (.token 3 "x")).answers j
      = slotAt (applyAll 2 AppState.initial [.progress 1 2 1 "Q2"]).answers j :=
  ⟨by decide,
   C4_token_without_slot_dropped 2 (applyAll 2 AppState.initial [.progress 1 2 1 "Q2"])
     3 "x" (by decide)⟩

/-- Counterexample to C5 as stated: after `progress` and `answer_done` for
index 0, a further `token` for index 0 changes the array; the finished answer
`Hello` becomes `Hello!`. -/
theorem C5_counterexample :
    slotAt (applyAll 1 AppState.initial
        [.progress 0 1 1 "Q1", .answerDone 0 "Q1" "Hello" false]).answers 0
      = some { question := "Q1", answer := "Hello", error := false, index := 0,
               streaming := false, type := some "answer_done" } ∧
    (tryRecord 1 (applyAll 1 AppState.initial
        [.progress 0 1 1 "Q1", .answerDone 0 "Q1" "Hello" false]) (.token 0 "!")).answers
      ≠ (applyAll 1 AppState.initial
        [.progress 0 1 1 "Q1", .answerDone 0 "Q1" "Hello" false]).answers ∧
    slotAt (tryRecord 1 (applyAll 1 AppState.initial
        [.progress 0 1 1 "Q1", .answerDone 0 "Q1" "Hello" false]) (.token 0 "!")).answers 0
      = some { question := "Q1", answer := "Hello!", error := false, index := 0,
               streaming := false, type := some "answer_done" } := by
  decide

/-- C5, amended. A `token` record for an index whose card is finished
(`streaming: false`) is not ignored: its chunk is appended to the answer of
that card, whose other fields (`streaming` included) stay as they are; the
array keeps its length and reads the same at every other index. -/
theorem C5_token_after_done_appends (n : Nat) (st : AppState) (i : Nat) (chunk : String)
    (s : Slot) (hslot : slotAt st.answers i = some s) (hdone : s.streaming = false) :
    slotAt (tryRecord n st (.token i chunk)).answers i
      = some { question := s.question, answer := s.answer ++ chunk, error := s.error,
               index := s.index, streaming := false, type := s.type } ∧
    (tryRecord n st (.token i chunk)).answers.length = st.answers.length ∧
    ∀ j, j ≠ i → slotAt (tryRecord n st (.token i chunk)).answers j = slotAt st.answers j := by
  have h : (tryRecord n st (.token i chunk)).answers
      = assign (spread st.answers) i (.slot { s with answer := s.answer ++ chunk }) :=
    tokenUpdater_of_some chunk hslot
  refine ⟨?_, ?_, ?_⟩
  · rw [h, slotAt_assign_self, ← hdone]
  · rw [h, assign_length_of_lt _ _ _ (by
      rw [spread_length]; exact lt_length_of_slotAt _ _ _ hslot), spread_length]
  · intro j hj
    exact slotAt_tokenUpdater_ne _ _ _ _ hj

/-- Witness of the amended C5 on the state of its counterexample. -/
theorem C5_token_after_done_appends_witness :
    (slotAt (applyAll 1 AppState.initial
        [.progress 0 1 1 "Q1", .answerDone 0 "Q1" "Hello" false]).answers 0
      = some { question := "Q1", answer := "Hello", error := false, index := 0,
               streaming := false, type := some "answer_done" }) ∧
    slotAt (tryRecord 1 (applyAll 1 AppState.initial
        [.progress 0 1 1 "Q1", .answerDone 0 "Q1" "Hello" false]) (.token 0 "!")).answers 0
      = some { question := "Q1", answer := "Hello" ++ "!", error := false, index := 0,
               streaming := false, type := some "answer_done" } :=
  ⟨by decide,
   (C5_token_after_done_appends 1 (applyAll 1 AppState.initial
      [.progress 0 1 1 "Q1", .answerDone 0 "Q1" "Hello" false]) 0 "!"
    { question := "Q1", answer := "Hello", error := false, index := 0,
      streaming := false, type := some "answer_done" } (by decide) rfl).1⟩

/-! ## Lines that are skipped -/

/-- C6. A line is skipped without effect when it does not start with `data: `,
or when what follows the six-character prefix makes `JSON.parse` throw, or when
it parses to a value whose `type` is none of `progress`, `token`,
`answer_done`, `error`: the per-line step returns the state it was given (the
whole state, the answers included), and the loop goes on with the next line
from that state. -/
theorem C6_bad_lines_skipped (jsonParse : String → Option Data) (n : Nat) (st : AppState)
    (line : String)
    (hbad : startsWith line "data: " = false ∨
            jsonParse (slice line 6) = none ∨
            ∃ data, jsonParse (slice line 6) = some data ∧ isKnown data.type = false) :
    processLine jsonParse n st line = st ∧
    ∀ rest : List String,
      (line :: rest).foldl (processLine jsonParse n) st
        = rest.foldl (processLine jsonParse n) st := by
  have h : processLine jsonParse n st line = st := by
    unfold processLine
    rcases hbad with h | h | ⟨data, h, hk⟩
    · simp [h]
    · simp [h]
    · rw [h]
      cases data with
      | null => simp [tryRecord, applyRecord]
      | other t ht => simp [tryRecord, applyRecord]
      | progress j total current question => simp [Data.type, isKnown, knownTypes] at hk
      | token j chunk => simp [Data.type, isKnown, knownTypes] at hk
      | answerDone j question answer error => simp [Data.type, isKnown, knownTypes] at hk
      | error e => simp [Data.type, isKnown, knownTypes] at hk
  exact ⟨h, fun rest => by rw [List.foldl_cons, h]⟩

/-- Witness of C6: a line with an unknown `type`, between two good lines. -/
theorem C6_bad_lines_skipped_witness :
    (startsWith "data: \x7b\"type\":\"ping\"\x7d" "data: " = false ∨
      sampleParse (slice "data: \x7b\"type\":\"ping\"\x7d" 6) = none ∨
      ∃ data, sampleParse (slice "data: \x7b\"type\":\"ping\"\x7d" 6) = some data ∧
        isKnown data.type = false) ∧
    processLine sampleParse 2 AppState.initial "data: \x7b\"type\":\"ping\"\x7d"
      = AppState.initial :=
  ⟨Or.inr (Or.inr ⟨.other (some "ping") rfl, rfl, rfl⟩),
   (C6_bad_lines_skipped sampleParse 2 AppState.initial "data: \x7b\"type\":\"ping\"\x7d"
     (Or.inr (Or.inr ⟨.other (some "ping") rfl, rfl, rfl⟩))).1⟩

/-! ## The progress value -/

theorem percent_inRange {a b : Int} (h0 : 0 ≤ a) (h1 : a ≤ b) (h2 : 0 < b) :
    (percent a b).inRange := by
  have hb : b ≠ 0 := ne_of_gt h2
  have hbq : (0 : ℚ) < (b : ℚ) := by exact_mod_cast h2
  have haq : (0 : ℚ) ≤ (a : ℚ) := by exact_mod_cast h0
  have habq : (a : ℚ) ≤ (b : ℚ) := by exact_mod_cast h1
  have hle : (a : ℚ) / (b : ℚ) ≤ 1 := (div_le_one hbq).2 habq
  have hge : 0 ≤ (a : ℚ) / (b : ℚ) := div_nonneg haq (le_of_lt hbq)
  simp only [percent, hb, if_false, Num.inRange]
  constructor
  · positivity
  · linarith

/-- Counterexample to C7 as stated: a `progress` record with `current` 3 and
`total` 2 stores 150, and an `answer_done` record with index 2 in a submission
of 2 questions stores 150; neither value is at most 100. -/
theorem C7_counterexample :
    (tryRecord 2 AppState.initial (.progress 0 2 3 "Q1")).progress = .finite 150 ∧
    ¬ (tryRecord 2 AppState.initial (.progress 0 2 3 "Q1")).progress.inRange ∧
    (tryRecord 2 AppState.initial (.answerDone 2 "Q3" "A" false)).progress = .finite 150 ∧
    ¬ (tryRecord 2 AppState.initial (.answerDone 2 "Q3" "A" false)).progress.inRange := by
  have e1 : (tryRecord 2 AppState.initial (.progress 0 2 3 "Q1")).progress = .finite 150 := by
    show percent 3 2 = .finite 150
    norm_num [percent]
  have e2 : (tryRecord 2 AppState.initial (.answerDone 2 "Q3" "A" false)).progress
      = .finite 150 := by
    show percent (((2 : Nat) : Int) + 1) ((2 : Nat) : Int) = .finite 150
    norm_num [percent]
  refine ⟨e1, ?_, e2, ?_⟩
  · rw [e1]; norm_num [Num.inRange]
  · rw [e2]; norm_num [Num.inRange]

/-- C7, amended. The stored percentages are not clamped; they are within
[0, 100] when the record respects the producer's numbering: every `progress`
record with `0 ≤ current ≤ total` and `total > 0`, whatever its index and
whatever the number of submitted questions, stores a value
`(current / total) * 100` between 0 and 100; and every `answer_done` record
whose index `i` is below the number `n` of submitted questions stores a value
`((i + 1) / n) * 100` between 0 and 100. -/
theorem C7_percentages_in_range :
    (∀ (n : Nat) (st : AppState) (index : Nat) (total current : Int) (question : String),
      0 ≤ current → current ≤ total → 0 < total →
      (tryRecord n st (.progress index total current question)).progress
        = percent current total ∧
      (tryRecord n st (.progress index total current question)).progress.inRange) ∧
    (∀ (n : Nat) (st : AppState) (i : Nat) (question answer : String) (error : Bool),
      i < n →
      (tryRecord n st (.answerDone i question answer error)).progress
        = percent ((i : Int) + 1) (n : Int) ∧
      (tryRecord n st (.answerDone i question answer error)).progress.inRange) := by
  constructor
  · intro n st index total current question hcur hle htot
    exact ⟨rfl, percent_inRange hcur hle htot⟩
  · intro n st i question answer error hi
    refine ⟨rfl, ?_⟩
    show (percent ((i : Int) + 1) (n : Int)).inRange
    apply percent_inRange
    · omega
    · omega
    · omega

/-- Witness of the amended C7: a `progress` record whose index 5 is beyond the
two submitted questions, and the `answer_done` record of the first question. -/
theorem C7_percentages_in_range_witness :
    ((0 : Int) ≤ 1 ∧ (1 : Int) ≤ 2 ∧ (0 : Int) < 2 ∧ 0 < 2) ∧
    (tryRecord 2 AppState.initial (.progress 5 2 1 "Q1")).progress.inRange ∧
    (tryRecord 0 AppState.initial (.progress 0 2 1 "Q1")).progress.inRange ∧
    (tryRecord 2 AppState.initial (.answerDone 0 "Q1" "A" false)).progress.inRange :=
  ⟨by decide,
   (C7_percentages_in_range.1 2 AppState.initial 5 2 1 "Q1"
     (by decide) (by decide) (by decide)).2,
   (C7_percentages_in_range.1 0 AppState.initial 0 2 1 "Q1"
     (by decide) (by decide) (by decide)).2,
   (C7_percentages_in_range.2 2 AppState.initial 0 "Q1" "A" false (by decide)).2⟩

/-! ## The end of `handleSubmit` -/

/-- C8. Whenever at least one question was submitted, `handleSubmit` ends with
`progress` exactly 100 and `loading` false: after a stream that ended
normally, after a response that was not OK, after a `fetch` that rejected and
after a read that threw part-way, whatever the stream carried. The answers are
then the ones reduced from the chunks received: a failure writes the error
message only and leaves them as they were. -/
theorem C8_submit_always_finishes (jsonParse : String → Option Data) (questions : String)
    (fetched : Fetched) (st : AppState) (hq : parseQuestions questions ≠ []) :
    (handleSubmit jsonParse questions fetched st).progress = .finite 100 ∧
    (handleSubmit jsonParse questions fetched st).loading = false ∧
    (handleSubmit jsonParse questions fetched st).answers
      = (readLoop (processLine jsonParse (parseQuestions questions).length) ""
          (resetForSubmit st) fetched.chunksRead).1.answers := by
  have hlen : (parseQuestions questions).length ≠ 0 := by
    intro h; exact hq (List.length_eq_zero.1 h)
  unfold handleSubmit
  simp only [hlen, if_false]
  refine ⟨trivial, trivial, ?_⟩
  cases fetched with
  | rejects => simp [tryBlock, Fetched.chunksRead, readLoop]
  | notOk status => simp [tryBlock, Fetched.chunksRead, readLoop]
  | stream chunks last =>
    cases last <;> simp [tryBlock, Fetched.chunksRead]

/-- Witness of C8: one question, a stream that delivers a `progress` line and
half of a `token` line and then fails. -/
theorem C8_submit_always_finishes_witness :
    parseQuestions "Q1" ≠ [] ∧
    (handleSubmit sampleParse "Q1"
      (.stream ["data: \x7b\"type\":\"progress\",\"index\":0,\"total\":2,\"current\":1,\"question\":\"Q1\"\x7d\nda",
                "ta: \x7b\"type\":\"tok"] .throws) AppState.initial).progress = .finite 100 ∧
    (handleSubmit sampleParse "Q1"
      (.stream ["data: \x7b\"type\":\"progress\",\"index\":0,\"total\":2,\"current\":1,\"question\":\"Q1\"\x7d\nda",
                "ta: \x7b\"type\":\"tok"] .throws) AppState.initial).loading = false :=
  ⟨by decide,
   (C8_submit_always_finishes sampleParse "Q1"
     (.stream ["data: \x7b\"type\":\"progress\",\"index\":0,\"total\":2,\"current\":1,\"question\":\"Q1\"\x7d\nda",
               "ta: \x7b\"type\":\"tok"] .throws) AppState.initial (by decide)).1,
   (C8_submit_always_finishes sampleParse "Q1"
     (.stream ["data: \x7b\"type\":\"progress\",\"index\":0,\"total\":2,\"current\":1,\"question\":\"Q1\"\x7d\nda",
               "ta: \x7b\"type\":\"tok"] .throws) AppState.initial (by decide)).2.1⟩

/-! ## The follow-up chat -/

theorem sendStart_rejected {item : Item} {now : Nat} {st : ChatState}
    (h : trim st.input = "" ∨ st.chatLoading = true) :
    sendStart item now st = (st, none) := by
  unfold sendStart
  rcases h with h | h <;> simp [h]

theorem sendStart_accepted {item : Item} {now : Nat} {st : ChatState}
    (hin : trim st.input ≠ "") (hidle : st.chatLoading = false) :
    sendStart item now st
      = ({ chatMessages := st.chatMessages ++
              [{ role := "user", content := trim st.input, timestamp := now }],
           input := "", chatLoading := true, chatError := "" },
         some { originalQuestion := item.question, originalAnswer := item.answer,
                history := (st.chatMessages.drop 1).map Message.toTurn,
                userMessage := trim st.input }) := by
  unfold sendStart
  simp [hin, hidle]

theorem sendMessage_accepted {item : Item} (post : ChatRequest → ChatOutcome)
    {now : Nat} (later : Nat) {st : ChatState}
    (hin : trim st.input ≠ "") (hidle : st.chatLoading = false) :
    (sendMessage item post now later st).2
      = [{ originalQuestion := item.question, originalAnswer := item.answer,
           history := (st.chatMessages.drop 1).map Message.toTurn,
           userMessage := trim st.input }] := by
  simp only [sendMessage, sendStart_accepted hin hidle]

/-- C9. `sendMessage` does nothing exactly when the trimmed input is empty or a
reply is awaited: then the transcript, the input, the loading flag and the
error message are as before and no request is posted. Otherwise it posts
exactly one request and appends exactly one `user` message (followed at most by
the assistant's reply), and from the moment the request is posted until it
settles `chatLoading` is true, so that whatever is typed meanwhile a further
`sendMessage` posts nothing: at most one request is in flight. -/
theorem C9_send_guard (item : Item) (post : ChatRequest → ChatOutcome) (now later : Nat)
    (st : ChatState) :
    ((trim st.input = "" ∨ st.chatLoading = true) →
      sendMessage item post now later st = (st, [])) ∧
    (¬ (trim st.input = "" ∨ st.chatLoading = true) →
      (∃ req, (sendMessage item post now later st).2 = [req]) ∧
      (∃ replies : List Message, replies.length ≤ 1 ∧
        (∀ m ∈ replies, m.role = "assistant") ∧
        (sendMessage item post now later st).1.chatMessages
          = st.chatMessages ++
              { role := "user", content := trim st.input, timestamp := now } :: replies) ∧
      (sendStart item now st).1.chatLoading = true ∧
      ∀ (typed : String) (now2 later2 : Nat),
        (sendMessage item post now2 later2
          { (sendStart item now st).1 with input := typed }).2 = []) := by
  constructor
  · intro h
    simp [sendMessage, sendStart_rejected h]
  · intro h
    have hin : trim st.input ≠ "" := fun e => h (Or.inl e)
    have hidle : st.chatLoading = false := by
      cases hl : st.chatLoading with
      | false => rfl
      | true => exact absurd (Or.inr hl) h
    refine ⟨?_, ?_, ?_, ?_⟩
    · exact ⟨_, sendMessage_accepted post later hin hidle⟩
    · simp only [sendMessage, sendStart_accepted hin hidle]
      cases post { originalQuestion := item.question, originalAnswer := item.answer,
                   history := (st.chatMessages.drop 1).map Message.toTurn,
                   userMessage := trim st.input } with
      | throws => exact ⟨[], by simp, by simp, by simp [sendFinish]⟩
      | resolved success reply =>
        cases success with
        | false => exact ⟨[], by simp, by simp, by simp [sendFinish]⟩
        | true =>
          exact ⟨[{ role := "assistant", content := reply, timestamp := later }],
            by simp, by simp, by simp [sendFinish]⟩
    · simp [sendStart_accepted hin hidle]
    · intro typed now2 later2
      have hr : sendStart item now2 { (sendStart item now st).1 with input := typed }
          = ({ (sendStart item now st).1 with input := typed }, none) :=
        sendStart_rejected (Or.inr (by simp [sendStart_accepted hin hidle]))
      simp [sendMessage, hr]

/-- Witness of C9: the second question of `sampleChat` is accepted and posted
once; typed again while the reply is awaited, it posts nothing. -/
theorem C9_send_guard_witness :
    ¬ (trim sampleChat.input = "" ∨ sampleChat.chatLoading = true) ∧
    (∃ req, (sendMessage { question := "Q1", answer := "A1" }
        (fun _ => .resolved true "then") 40 50 sampleChat).2 = [req]) ∧
    (sendMessage { question := "Q1", answer := "A1" } (fun _ => .resolved true "then") 41 51
      { (sendStart { question := "Q1", answer := "A1" } 40 sampleChat).1
          with input := "again" }).2 = [] :=
  ⟨by decide,
   ((C9_send_guard { question := "Q1", answer := "A1" } (fun _ => .resolved true "then")
      40 50 sampleChat).2 (by decide)).1,
   ((C9_send_guard { question := "Q1", answer := "A1" } (fun _ => .resolved true "then")
      40 50 sampleChat).2 (by decide)).2.2.2 "again" 41 51⟩

/-- C10. The request of an accepted send carries the question and the answer of
the item, the trimmed input as `userMessage` and, as `history`, the
`{ role, content }` pairs of the messages of the transcript as it stood before
the send, in order, without the first one: for a transcript `seed :: rest` the
history is that of `rest`, one entry shorter than the transcript, and neither
the seed nor the new user text is an entry of it by position. -/
theorem C10_history_excludes_seed (item : Item) (post : ChatRequest → ChatOutcome)
    (now later : Nat) (st : ChatState)
    (hin : trim st.input ≠ "") (hidle : st.chatLoading = false) :
    ∃ req, (sendMessage item post now later st).2 = [req] ∧
      req.originalQuestion = item.question ∧
      req.originalAnswer = item.answer ∧
      req.userMessage = trim st.input ∧
      req.history = st.chatMessages.tail.map Message.toTurn ∧
      req.history.length = st.chatMessages.length - 1 ∧
      ∀ (seed : Message) (rest : List Message), st.chatMessages = seed :: rest →
        req.history = rest.map Message.toTurn := by
  refine ⟨_, sendMessage_accepted post later hin hidle, rfl, rfl, rfl, ?_, ?_, ?_⟩
  · simp [List.drop_one]
  · simp
  · intro seed rest h
    simp [h]

/-- Witness of C10: the request posted for the second question of
`sampleChat`. -/
theorem C10_history_excludes_seed_witness :
    (trim sampleChat.input ≠ "" ∧ sampleChat.chatLoading = false) ∧
    (sendMessage { question := "Q1", answer := "A1" } (fun _ => .throws) 40 50 sampleChat).2
      = [{ originalQuestion := "Q1", originalAnswer := "A1",
           history := [{ role := "user", content := "why?" },
                       { role := "assistant", content := "because" }],
           userMessage := "and then?" }] :=
  ⟨by decide, by
    obtain ⟨req, h, hq, ha, hu, hh, _, _⟩ :=
      C10_history_excludes_seed { question := "Q1", answer := "A1" } (fun _ => .throws)
        40 50 sampleChat (by decide) (by decide)
    rw [h]
    cases req
    simp only at hq ha hu hh
    subst hq ha hu hh
    decide⟩

/-! ## A failing follow-up request -/

theorem accepted_of_sendStart {item : Item} {now : Nat} {st : ChatState} {req : ChatRequest}
    (h : (sendStart item now st).2 = some req) :
    trim st.input ≠ "" ∧ st.chatLoading = false := by
  by_cases hg : trim st.input = "" ∨ st.chatLoading = true
  · rw [sendStart_rejected hg] at h
    exact absurd h (by simp)
  · constructor
    · exact fun e => hg (Or.inl e)
    · cases hl : st.chatLoading with
      | false => rfl
      | true => exact absurd (Or.inr hl) hg

/-- C11. When the request of an accepted send fails (`axios.post` throws, or
the response has `success` false), the transcript afterwards is the transcript
before the send followed by the one `user` message and nothing else, the
session error message is not empty, and `chatLoading` is false again, so that
a further `sendMessage` with a non-blank input is accepted and posts a
request. -/
theorem C11_failed_request_keeps_transcript (item : Item) (post : ChatRequest → ChatOutcome)
    (now later : Nat) (st : ChatState) (req : ChatRequest)
    (hreq : (sendStart item now st).2 = some req)
    (hfail : post req = .throws ∨ ∃ reply, post req = .resolved false reply) :
    (sendMessage item post now later st).1.chatMessages
      = st.chatMessages ++ [{ role := "user", content := trim st.input, timestamp := now }] ∧
    (sendMessage item post now later st).1.chatError ≠ "" ∧
    (sendMessage item post now later st).1.chatLoading = false ∧
    ∀ (typed : String) (now2 : Nat), trim typed ≠ "" →
      ∃ req2, (sendStart item now2
        { (sendMessage item post now later st).1 with input := typed }).2 = some req2 := by
  obtain ⟨hin, hidle⟩ := accepted_of_sendStart hreq
  have hreq2 : req = { originalQuestion := item.question, originalAnswer := item.answer,
                       history := (st.chatMessages.drop 1).map Message.toTurn,
                       userMessage := trim st.input } := by
    rw [sendStart_accepted hin hidle] at hreq
    exact (Option.some.inj hreq).symm
  have hfin : ∀ outcome, post req = outcome →
      (sendMessage item post now later st).1
        = sendFinish later
            { chatMessages := st.chatMessages ++
                [{ role := "user", content := trim st.input, timestamp := now }],
              input := "", chatLoading := true, chatError := "" } outcome := by
    intro outcome ho
    simp only [sendMessage, sendStart_accepted hin hidle]
    rw [← hreq2, ho]
  have hthree : (sendMessage item post now later st).1.chatMessages
        = st.chatMessages ++ [{ role := "user", content := trim st.input, timestamp := now }] ∧
      (sendMessage item post now later st).1.chatError ≠ "" ∧
      (sendMessage item post now later st).1.chatLoading = false := by
    rcases hfail with h | ⟨reply, h⟩
    · rw [hfin _ h]
      exact ⟨rfl, by simp [sendFinish], rfl⟩
    · rw [hfin _ h]
      exact ⟨rfl, by simp [sendFinish], rfl⟩
  refine ⟨hthree.1, hthree.2.1, hthree.2.2, ?_⟩
  intro typed now2 htyped
  have hacc := @sendStart_accepted item now2
    { (sendMessage item post now later st).1 with input := typed } htyped hthree.2.2
  exact ⟨_, by rw [hacc]⟩

/-- Witness of C11: the second question of `sampleChat` when the server cannot
be reached. -/
theorem C11_failed_request_keeps_transcript_witness :
    ((sendStart { question := "Q1", answer := "A1" } 40 sampleChat).2 = some sampleRequest) ∧
    (sendMessage { question := "Q1", answer := "A1" } (fun _ => .throws) 40 50
        sampleChat).1.chatMessages
      = sampleChat.chatMessages ++
          [{ role := "user", content := trim sampleChat.input, timestamp := 40 }] ∧
    (sendMessage { question := "Q1", answer := "A1" } (fun _ => .throws) 40 50
        sampleChat).1.chatError ≠ "" ∧
    (sendMessage { question := "Q1", answer := "A1" } (fun _ => .throws) 40 50
        sampleChat).1.chatLoading = false :=
  ⟨by decide,
   (C11_failed_request_keeps_transcript { question := "Q1", answer := "A1" }
      (fun _ => .throws) 40 50 sampleChat sampleRequest (by decide) (Or.inl rfl)).1,
   (C11_failed_request_keeps_transcript { question := "Q1", answer := "A1" }
      (fun _ => .throws) 40 50 sampleChat sampleRequest (by decide) (Or.inl rfl)).2.1,
   (C11_failed_request_keeps_transcript { question := "Q1", answer := "A1" }
      (fun _ => .throws) 40 50 sampleChat sampleRequest (by decide) (Or.inl rfl)).2.2.1⟩

/-! ## The displayed answer count -/

theorem slotAt_cons_zero (c : Cell) (cs : List Cell) :
    slotAt (c :: cs) 0 = (match c with
      | .slot s => some s
      | _ => none) := by
  cases c <;> rfl

theorem cardsWithoutError_cons (c : Cell) (cs : List Cell) :
    cardsWithoutError (c :: cs)
      = (match c with
          | .slot s => if s.error then 0 else 1
          | _ => 0) + cardsWithoutError cs := by
  have hfun : ((fun i => match slotAt (c :: cs) i with
        | some s => !s.error
        | none => false) ∘ Nat.succ)
      = (fun i => match slotAt cs i with
        | some s => !s.error
        | none => false) := by
    funext i
    rfl
  unfold cardsWithoutError
  rw [List.length_cons, List.range_succ_eq_map, List.filter_cons, List.filter_map, hfun,
    slotAt_cons_zero]
  cases c with
  | hole => simp
  | undefined => simp
  | slot s =>
    cases he : s.error <;> simp [he, Nat.add_comm]

/-- The displayed count is the number of cards without error plus the number
of positions that hold a stored `undefined`. -/
theorem answerCount_eq (answers : List Cell) :
    answerCount answers = cardsWithoutError answers + undefinedCount answers := by
  induction answers with
  | nil => rfl
  | cons c cs ih =>
    rw [cardsWithoutError_cons]
    unfold answerCount undefinedCount at ih ⊢
    cases c with
    | hole => simpa [countsAsAnswer] using ih
    | undefined =>
      simp only [List.filter_cons, countsAsAnswer, if_true, List.length_cons, decide_True]
      omega
    | slot s =>
      cases he : s.error <;> simp [countsAsAnswer, he] <;> omega

/-- C12, the code at the failing input. After a `progress` record for index 1
and one `token` record for it, index 0 holds no card and exactly one index
holds a card without error, yet the displayed count is 2: the copy made by the
second updater stores `undefined` at index 0, and the callback `a => !a?.error`
keeps it. Right after the `progress` record alone, index 0 is still a hole and
the count is 1. In general the count exceeds the number of cards without error
by the number of stored `undefined`. -/
theorem C12_count_includes_undefined :
    slotAt (applyAll 2 AppState.initial
      [.progress 1 2 2 "Q2", .token 1 "x"]).answers 0 = none ∧
    cardsWithoutError (applyAll 2 AppState.initial
      [.progress 1 2 2 "Q2", .token 1 "x"]).answers = 1 ∧
    answerCount (applyAll 2 AppState.initial
      [.progress 1 2 2 "Q2", .token 1 "x"]).answers = 2 ∧
    answerCount (applyAll 2 AppState.initial [.progress 1 2 2 "Q2"]).answers = 1 ∧
    ∀ answers : List Cell,
      answerCount answers = cardsWithoutError answers + undefinedCount answers :=
  ⟨by decide, by decide, by decide, by decide, answerCount_eq⟩

end App
